import Mathlib

/-!
Verification of the Shamir secret-sharing and verifiable-secret-sharing (VSS)
implementation.  The definitions below are a shallow embedding of the Rust
sources `src/shamir.rs`, `src/vss.rs` and `src/verifiable_secret.rs`:

* Rust `i64` values are modelled as `Int`; `usize` values as `Nat`.  Rust's
  truncating `%` and `/` on `i64` are modelled by `Int.tmod` / `Int.tdiv`.
  The multiplications of `mod_exp`'s loop can overflow `i64`; release
  builds wrap to two's complement, which is modelled by `wrap64` (debug
  builds panic on the same products, so where no overflow occurs — as the
  bounds of the `mod_exp` theorems guarantee — both modes agree with the
  model).  In the polynomial-evaluation path `i64` overflow is not
  modelled; every concrete instance below stays far below that range.
* `num_bigint::BigInt` values are modelled as `Int`.  `BigInt::modpow`
  panics on a negative exponent; this is modelled by returning `none`.
  For the positive modulus used throughout (`p = 2039`) its result is the
  mathematical residue in `[0, modulus)`, i.e. `Int.emod` (written `%`).
* `rand::thread_rng` draws are modelled by an explicit oracle
  `rng : Nat → Int` supplying the successive draws; `gen_range(1..=s/2)`
  panics when the range is empty (`s/2 < 1`), which is modelled by `none`.
* `reconstruct_secret` computes with `f64`.  The real-number content of that
  computation is modelled exactly over `ℚ`; `f64::round` (round half away
  from zero) is modelled by `rustRound`.  At the small magnitudes used in
  every concrete theorem below the `f64` computation is exact, so the `ℚ`
  model agrees with the Rust code there.  For large values the Rust code
  diverges from this exact model (see the round-trip analysis).
* A Rust method taking `&mut self` is modelled as a function from the state
  to a (result, new state) pair; a method that never assigns to a field
  returns the state unchanged.
-/

/-- Square-and-multiply loop of `num_bigint::BigInt::modpow`, with a fuel
argument making the recursion structural (the caller passes `fuel = e`,
which always suffices since the exponent halves each step). -/
def bigModPowAux (m : Int) : Nat → Nat → Int → Int → Int
  | 0, _, result, _ => result
  | fuel + 1, e, result, base =>
    if e = 0 then result
    else
      bigModPowAux m fuel (e / 2)
        (if e % 2 = 1 then (result * base) % m else result)
        ((base * base) % m)

/-- Models `num_bigint::BigInt::modpow` (`vss.rs` uses it for every modular
power).  `none` models the panic on a negative exponent.  All uses in this
repository have modulus `p = 2039 > 1`, for which `modpow` returns the
nonnegative residue `(b ^ e) mod m` (proved below as
`bigModPow_eq_pow_emod`). -/
def bigModPow (b e m : Int) : Option Int :=
  if e < 0 then none
  else some (bigModPowAux m e.toNat e.toNat 1 (b % m))

/-- `VSSParams` from `src/vss.rs`. -/
structure VSSParams where
  p : Int
  q : Int
  g : Int
deriving DecidableEq

/-- `VSSParams::new` from `src/vss.rs`: the fixed example field
`p = 2039`, `q = 1019`, `g = 2`. -/
def VSSParams.new : VSSParams :=
  { p := 2039, q := 1019, g := 2 }

/-- `VSSCommitments` from `src/vss.rs`. -/
structure VSSCommitments where
  commitments : List Int
deriving DecidableEq

/-- `VSSCommitments::new` from `src/vss.rs`: one commitment
`g^coeff mod p` per coefficient, in order. -/
def VSSCommitments.new (coefficients : List Int) (params : VSSParams) :
    Option VSSCommitments :=
  (coefficients.mapM (fun coeff => bigModPow params.g coeff params.p)).map
    VSSCommitments.mk

/-- `VSSCommitments::verify_share` from `src/vss.rs`.  Note that the code
computes the exponent as `x.modpow(i, p)`, i.e. `x^i` reduced modulo `p`
(not modulo `p - 1`, and not the plain `x^i`). -/
def VSSCommitments.verify_share (self : VSSCommitments) (x share : Int)
    (params : VSSParams) : Option Bool := do
  let expected ← self.commitments.enum.foldlM
    (fun (acc : Int) ic => do
      let power ← bigModPow x (Int.ofNat ic.1) params.p
      let term ← bigModPow ic.2 power params.p
      pure ((acc * term).tmod params.p))
    1
  let actual ← bigModPow params.g share params.p
  pure (expected == actual)

/-- `SharmirModel` from `src/shamir.rs` (the source's spelling). -/
structure SharmirModel where
  secret : Int
  shares : Nat
  threshold : Nat
  generated_shares : List (Int × Int)
  coefficients : List Int
  vss_commitments : Option VSSCommitments
  vss_params : VSSParams
deriving DecidableEq

/-- `SharmirModel::new` from `src/shamir.rs`: no validation of any argument,
empty share and coefficient vectors, no commitments yet. -/
def SharmirModel.new (secret : Int) (shares threshold : Nat) : SharmirModel :=
  { secret := secret
    shares := shares
    threshold := threshold
    generated_shares := []
    coefficients := []
    vss_commitments := none
    vss_params := VSSParams.new }

/-- `SharmirModel::construct_polynomial` from `src/shamir.rs`.  On the first
call (empty coefficient vector) it draws `threshold - 1` coefficients from
`gen_range(1..=secret/2)` — modelled by the oracle `rng`, with `none` for the
panic when that range is empty — stores `secret :: draws` and the VSS
commitments, then evaluates
`secret + Σ coefficients[i+1] * x^(i+1)`.  Later calls reuse the stored
coefficients and touch no state. -/
def SharmirModel.constructPolynomial (m : SharmirModel) (rng : Nat → Int)
    (x : Int) : Option (Int × SharmirModel) :=
  let updated : Option SharmirModel :=
    if m.coefficients.isEmpty then
      if 2 ≤ m.threshold ∧ m.secret.tdiv 2 < 1 then
        none
      else
        let coeffs := m.secret :: (List.range (m.threshold - 1)).map rng
        (VSSCommitments.new coeffs m.vss_params).map
          (fun comm =>
            { m with coefficients := coeffs, vss_commitments := some comm })
    else some m
  updated.map (fun m2 =>
    (m.secret +
      ((m2.coefficients.drop 1).enum.map
        (fun pc => pc.2 * x ^ (pc.1 + 1))).sum,
     m2))

/-- `SharmirModel::verify_share` from `src/shamir.rs`: delegate when
commitments exist, otherwise `false`. -/
def SharmirModel.verify_share (m : SharmirModel) (x share : Int) :
    Option Bool :=
  match m.vss_commitments with
  | some commitments => commitments.verify_share x share m.vss_params
  | none => some false

/-- `SharmirModel::generate_shares` from `src/shamir.rs`: for `i` in
`0 .. shares`, take `x = i` and `y = construct_polynomial(x)`, then assign
the list to `generated_shares`. -/
def SharmirModel.generateShares (m : SharmirModel) (rng : Nat → Int) :
    Option SharmirModel := do
  let res ← (List.range m.shares).foldlM
    (fun (st : List (Int × Int) × SharmirModel) i => do
      let ym ← st.2.constructPolynomial rng (Int.ofNat i)
      pure (st.1 ++ [(Int.ofNat i, ym.1)], ym.2))
    ([], m)
  pure { res.2 with generated_shares := res.1 }

/-- `SharmirModel::split_shares` from `src/shamir.rs`. -/
def SharmirModel.splitShares (shares : List (Int × Int)) :
    List Int × List Int :=
  (shares.map Prod.fst, shares.map Prod.snd)

/-- `SharmirModel::lagrange_basis` from `src/shamir.rs`: numerator
`Π_{j ≠ i} x_j` and denominator `Π_{j ≠ i} (x_j - x_i)`, accumulated in
`f64` in the source, modelled exactly in `ℚ`.  The source indexes
`x_values[share_index]` (in range at every call site); out of range is
modelled by the default `0`. -/
def SharmirModel.lagrangeBasis (shareIndex : Nat) (xValues : List Int) :
    ℚ × ℚ :=
  xValues.enum.foldl
    (fun nd ic =>
      if ic.1 ≠ shareIndex then
        (nd.1 * (ic.2 : ℚ),
         nd.2 * ((ic.2 - xValues.getD shareIndex 0 : Int) : ℚ))
      else nd)
    (1, 1)

/-- Models `f64::round`: round half away from zero (Mathlib's `round`
rounds half up, which agrees on nonnegative input). -/
def rustRound (q : ℚ) : Int :=
  if 0 ≤ q then round q else -(round (-q))

/-- `SharmirModel::reconstruct_secret` from `src/shamir.rs`: Lagrange
interpolation at `x = 0`, `Σ y_i * numerator_i / denominator_i`, finally
rounded.  The source performs the sum in `f64`; the model is exact over `ℚ`.
The method takes `&mut self` but assigns to no field, so the state is
returned unchanged.  There is no check of any kind on the number of shares,
and no error path: the function is total. -/
def SharmirModel.reconstructSecret (m : SharmirModel)
    (shares : List (Int × Int)) : Int × SharmirModel :=
  let xy := SharmirModel.splitShares shares
  let result : ℚ := (List.range shares.length).foldl
    (fun acc i =>
      let nd := SharmirModel.lagrangeBasis i xy.1
      acc + (xy.2.getD i 0 : ℚ) * nd.1 / nd.2)
    0
  (rustRound result, m)

/-- Two's-complement wrap-around of an `i64` multiplication result, as
release-build Rust performs it: the value modulo `2^64` shifted into
`[-2^63, 2^63)`.  (Debug builds panic instead when the value is out of
that range.) -/
def wrap64 (x : Int) : Int :=
  (x + 9223372036854775808) % 18446744073709551616 - 9223372036854775808

/-- The square-and-multiply loop of `VerifiableSecretSharing::mod_exp` from
`src/verifiable_secret.rs`, with an explicit fuel argument so the definition
is structural (the wrapper passes `fuel = e`, which always suffices since
`e` halves each step).  The two `i64` multiplications wrap on overflow in
release builds (`wrap64`); debug builds panic there instead. -/
def modExpAux (m : Int) : Nat → Nat → Int → Int → Int
  | 0, _, result, _ => result
  | fuel + 1, e, result, base =>
    if e = 0 then result
    else
      modExpAux m fuel (e / 2)
        (if e % 2 = 1 then (wrap64 (result * base)).tmod m else result)
        ((wrap64 (base * base)).tmod m)

/-- `VerifiableSecretSharing::mod_exp` from `src/verifiable_secret.rs`
(`&self` is unused by the method and omitted).  `result` starts at `1`, the
base is first reduced with Rust's truncating `%`, and the `while exp > 0`
loop squares and multiplies.  For `exp ≤ 0` the loop never runs and the
initial `1` is returned — there is no error path.  (Rust would panic on
`modulus = 0`, or on `base = i64::MIN` with `modulus = -1`, when reducing
the base; theorems about this function assume a nonzero modulus and stay
away from that corner.) -/
def VerifiableSecretSharing.mod_exp (base exp modulus : Int) : Int :=
  if exp ≤ 0 then 1
  else modExpAux modulus exp.toNat exp.toNat 1 (base.tmod modulus)

/-! ## Claim theorems -/

/-- C10: after `SharmirModel::new` no polynomial has been generated, so
`vss_commitments` is `None`, and `verify_share` returns `false` for every
`x` and `y` rather than failing. -/
theorem verify_share_unset_commitments_false (s : Int) (sh t : Nat)
    (x y : Int) :
    (SharmirModel.new s sh t).vss_commitments = none ∧
    (SharmirModel.new s sh t).verify_share x y = some false :=
  ⟨rfl, rfl⟩

/-- C9: `reconstruct_secret` takes the model by mutable reference but writes
no field: every field of the state it returns equals the corresponding field
of the input state. -/
theorem reconstruct_secret_frame (m : SharmirModel)
    (ss : List (Int × Int)) :
    (m.reconstructSecret ss).2.secret = m.secret ∧
    (m.reconstructSecret ss).2.shares = m.shares ∧
    (m.reconstructSecret ss).2.threshold = m.threshold ∧
    (m.reconstructSecret ss).2.generated_shares = m.generated_shares ∧
    (m.reconstructSecret ss).2.coefficients = m.coefficients ∧
    (m.reconstructSecret ss).2.vss_commitments = m.vss_commitments ∧
    (m.reconstructSecret ss).2.vss_params = m.vss_params :=
  ⟨rfl, rfl, rfl, rfl, rfl, rfl, rfl⟩

/-- C2 (failing-input evaluation): a session with `secret = 4`, `n = 3`
shares, threshold `2` and coefficient draw `1` generates the shares
`[(0, 4), (1, 5), (2, 6)]` — the x-coordinates are `0, 1, 2`, not the
claimed nonzero `1 ..= n`, and the share at `x = 0` exposes the secret `4`
directly.  (The x-values are pairwise distinct, so only the nonzero half of
the claim fails.) -/
theorem generate_shares_zero_coordinate :
    ((SharmirModel.new 4 3 2).generateShares (fun _ => 1)).map
      (fun m => m.generated_shares) = some [(0, 4), (1, 5), (2, 6)] := by
  decide

/-- C7 (failing-input evaluation): polynomial generation performs no
threshold validation.  With `threshold = 0` (and `secret = 4`, `shares = 3`)
`construct_polynomial` succeeds and returns the constant `4`; with
`threshold = 5 > shares = 3` it also succeeds, returning `8` at `x = 1`.
Neither configuration produces an `InvalidThreshold` failure — no error
type exists anywhere in the code. -/
theorem threshold_not_validated :
    (((SharmirModel.new 4 3 0).constructPolynomial (fun _ => 1) 1).map
      Prod.fst = some 4) ∧
    (((SharmirModel.new 4 3 5).constructPolynomial (fun _ => 1) 1).map
      Prod.fst = some 8) := by
  constructor
  · decide
  · decide

/-- C4 (failing-input evaluation): reconstruction with fewer shares than the
threshold does not fail.  In a `threshold = 3` session, `reconstruct_secret`
applied to the single share `(1, 143)` returns the plausible-looking value
`143` instead of an `InsufficientShares` error (the function has no error
path at all and never reads the threshold). -/
theorem reconstruct_below_threshold_returns_value :
    ([((1 : Int), (143 : Int))].length <
      (SharmirModel.new 143 5 3).threshold) ∧
    ((SharmirModel.new 143 5 3).reconstructSecret [(1, 143)]).1 = 143 := by
  constructor
  · decide
  · norm_num [SharmirModel.reconstructSecret, SharmirModel.splitShares,
      SharmirModel.lagrangeBasis, rustRound, List.range_succ, round_eq,
      List.enum, List.enumFrom]

/-- C1 (exact-arithmetic evaluation): with `secret = 143`, `threshold = 3`,
`n = 5` shares and coefficient draws `70, 70` the session generates shares
`y = 143 + 70x + 70x²` at `x = 0 .. 4`, and reconstructing from the
3-subsets `{x = 1, 3, 4}` and `{x = 0, 2, 4}` returns exactly `143` — in
the exact `ℚ` model of the `f64` computation, which agrees with the Rust
code at these small magnitudes where every `f64` step is exact.  (For large
secrets the `f64` code diverges from this exact model; see the round-trip
analysis of the results.) -/
theorem shamir_roundtrip_exact_small :
    ((SharmirModel.new 143 5 3).generateShares (fun _ => 70)).map
      (fun m => m.generated_shares) =
      some [(0, 143), (1, 283), (2, 563), (3, 983), (4, 1543)] ∧
    (∀ m : SharmirModel,
      (m.reconstructSecret [(1, 283), (3, 983), (4, 1543)]).1 = 143 ∧
      (m.reconstructSecret [(0, 143), (2, 563), (4, 1543)]).1 = 143) := by
  refine ⟨by decide, fun m => ⟨?_, ?_⟩⟩
  · norm_num [SharmirModel.reconstructSecret, SharmirModel.splitShares,
      SharmirModel.lagrangeBasis, rustRound, List.range_succ, round_eq,
      List.enum, List.enumFrom]
  · norm_num [SharmirModel.reconstructSecret, SharmirModel.splitShares,
      SharmirModel.lagrangeBasis, rustRound, List.range_succ, round_eq,
      List.enum, List.enumFrom]

/-- The complete state of the sharing session `secret = 4`, `n = 12`,
`threshold = 12` with every coefficient draw equal to `1` (polynomial
`4 + x + x² + ⋯ + x¹¹`), spelled out literally so that each evaluation
step below stays small. -/
def vssCounterexampleSession : SharmirModel :=
  { secret := 4
    shares := 12
    threshold := 12
    generated_shares :=
      [(0, 4), (1, 15), (2, 4098), (3, 265723), (4, 5592408),
       (5, 61035159), (6, 435356470), (7, 2306881203), (8, 9817068108),
       (9, 35303692063), (10, 111111111114), (11, 313842837675)]
    coefficients := [4, 1, 1, 1, 1, 1, 1, 1, 1, 1, 1, 1]
    vss_commitments :=
      some { commitments := [16, 2, 2, 2, 2, 2, 2, 2, 2, 2, 2, 2] }
    vss_params := VSSParams.new }

set_option maxRecDepth 4000 in
/-- C3 (failing-input evaluation): commitment soundness fails on the code.
The session `secret = 4`, `threshold = 12`, `n = 12` with coefficient
draws all `1` produces exactly the state `vssCounterexampleSession`, whose
honestly generated share `(2, 4098)` is rejected: `verify_share` returns
`false`.  The cause is that `verify_share` exponentiates the commitments
by `x^i mod p` (here `2¹¹ mod 2039 = 9` instead of `2048`); exponents of
`g` only cancel modulo the order of `g` (a divisor of `p - 1 = 2038`),
not modulo `p`, so the homomorphic identity breaks as soon as
`x^i ≥ p`. -/
theorem vss_verify_rejects_honest_share :
    (SharmirModel.new 4 12 12).generateShares (fun _ => 1) =
      some vssCounterexampleSession ∧
    vssCounterexampleSession.generated_shares.contains (2, 4098) = true ∧
    vssCounterexampleSession.verify_share 2 4098 = some false := by
  refine ⟨?_, ?_, ?_⟩
  · decide
  · decide
  · decide

/-- C6 (general evaluation): `mod_exp` with a negative exponent silently
returns the initial accumulator `1` — the `while exp > 0` loop never runs
and there is no `InvalidExponent` error path.  (`modulus ≠ 0` keeps the
pre-loop `base % modulus` from panicking.) -/
theorem mod_exp_negative_exponent (b e m : Int) (he : e < 0)
    (_hm : m ≠ 0) :
    VerifiableSecretSharing.mod_exp b e m = 1 := by
  unfold VerifiableSecretSharing.mod_exp
  rw [if_pos (le_of_lt he)]

/-- C6 witness: `mod_exp(2, -5, 7) = 1`. -/
theorem mod_exp_negative_exponent_witness :
    VerifiableSecretSharing.mod_exp 2 (-5) 7 = 1 :=
  mod_exp_negative_exponent 2 (-5) 7 (by decide) (by decide)

/-- C8: polynomial evaluation is deterministic within a session.  If the
coefficient vector is nonempty, `construct_polynomial` ignores the random
source entirely: the state (in particular the coefficient vector) is left
unchanged, and a second call with the same `x` — with any random source —
returns the same value and the same state. -/
theorem construct_polynomial_deterministic
    (m : SharmirModel) (rng rng' : Nat → Int) (x y : Int)
    (m' : SharmirModel) (hne : m.coefficients ≠ [])
    (h1 : m.constructPolynomial rng x = some (y, m')) :
    m' = m ∧ m'.constructPolynomial rng' x = some (y, m') := by
  have hempty : m.coefficients.isEmpty = false := by
    cases h : m.coefficients with
    | nil => exact absurd h hne
    | cons a l => rfl
  have heq : ∀ r : Nat → Int, m.constructPolynomial r x
      = some (m.secret + ((m.coefficients.drop 1).enum.map
          (fun pc => pc.2 * x ^ (pc.1 + 1))).sum, m) := by
    intro r
    unfold SharmirModel.constructPolynomial
    simp only [hempty, Bool.false_eq_true, if_false, Option.map_some']
  rw [heq rng, Option.some.injEq, Prod.mk.injEq] at h1
  obtain ⟨hy, hm⟩ := h1
  subst hm
  subst hy
  exact ⟨rfl, heq rng'⟩

/-- C8 witness: a concrete session state with coefficients `[4, 1]`
(secret `4`, threshold `2`); `construct_polynomial` at `x = 3` returns
`4 + 1·3 = 7` under either random source and preserves the state. -/
theorem construct_polynomial_deterministic_witness :
    ({ secret := 4, shares := 3, threshold := 2, generated_shares := [],
       coefficients := [4, 1], vss_commitments := none,
       vss_params := VSSParams.new } : SharmirModel) =
      { secret := 4, shares := 3, threshold := 2, generated_shares := [],
        coefficients := [4, 1], vss_commitments := none,
        vss_params := VSSParams.new } ∧
    SharmirModel.constructPolynomial
      { secret := 4, shares := 3, threshold := 2, generated_shares := [],
        coefficients := [4, 1], vss_commitments := none,
        vss_params := VSSParams.new } (fun _ => 9) 3 =
      some (7,
        { secret := 4, shares := 3, threshold := 2, generated_shares := [],
          coefficients := [4, 1], vss_commitments := none,
          vss_params := VSSParams.new }) :=
  construct_polynomial_deterministic
    { secret := 4, shares := 3, threshold := 2, generated_shares := [],
      coefficients := [4, 1], vss_commitments := none,
      vss_params := VSSParams.new }
    (fun _ => 1) (fun _ => 9) 3 7
    { secret := 4, shares := 3, threshold := 2, generated_shares := [],
      coefficients := [4, 1], vss_commitments := none,
      vss_params := VSSParams.new }
    (by decide) (by decide)

/-- The square-and-multiply loop computes `(r * b ^ e) mod m` whenever the
fuel suffices and the accumulator is already reduced. -/
lemma bigModPowAux_eq (m : Int) (hm : 0 < m) :
    ∀ (fuel e : Nat), e ≤ fuel → ∀ (r b : Int), 0 ≤ r → r < m →
      bigModPowAux m fuel e r b = (r * b ^ e) % m := by
  intro fuel
  induction fuel with
  | zero =>
    intro e he r b hr hrm
    have he0 : e = 0 := Nat.le_zero.mp he
    subst he0
    rw [show bigModPowAux m 0 0 r b = r from rfl, pow_zero, mul_one]
    exact (Int.emod_eq_of_lt hr hrm).symm
  | succ fuel ih =>
    intro e he r b hr hrm
    by_cases he0 : e = 0
    · subst he0
      rw [bigModPowAux, if_pos rfl, pow_zero, mul_one]
      exact (Int.emod_eq_of_lt hr hrm).symm
    · rw [bigModPowAux, if_neg he0]
      set r' := if e % 2 = 1 then (r * b) % m else r with hrdef
      have hrange : 0 ≤ r' ∧ r' < m := by
        by_cases hp : e % 2 = 1
        · rw [hrdef, if_pos hp]
          exact ⟨Int.emod_nonneg _ (ne_of_gt hm), Int.emod_lt_of_pos _ hm⟩
        · rw [hrdef, if_neg hp]
          exact ⟨hr, hrm⟩
      rw [ih (e / 2) (by omega) r' ((b * b) % m) hrange.1 hrange.2]
      have hbb : ((b * b) % m) ≡ b * b [ZMOD m] :=
        Int.emod_emod_of_dvd (b * b) dvd_rfl
      have hrmeq : r' ≡ r * b ^ (e % 2) [ZMOD m] := by
        by_cases hp : e % 2 = 1
        · rw [hrdef, if_pos hp, hp, pow_one]
          exact Int.emod_emod_of_dvd (r * b) dvd_rfl
        · have h2 : e % 2 = 0 := by omega
          rw [hrdef, if_neg hp, h2, pow_zero, mul_one]
      have h1 : r' * ((b * b) % m) ^ (e / 2)
          ≡ (r * b ^ (e % 2)) * (b * b) ^ (e / 2) [ZMOD m] :=
        hrmeq.mul (hbb.pow _)
      have h2 : (r * b ^ (e % 2)) * (b * b) ^ (e / 2) = r * b ^ e := by
        calc (r * b ^ (e % 2)) * (b * b) ^ (e / 2)
            = r * (b ^ (e % 2) * (b ^ 2) ^ (e / 2)) := by
              rw [← pow_two, mul_assoc]
          _ = r * b ^ (e % 2 + 2 * (e / 2)) := by
              rw [← pow_mul, ← pow_add]
          _ = r * b ^ e := by rw [Nat.mod_add_div]
      exact h2 ▸ h1

/-- `bigModPow` is `(b ^ e) mod m` for a nonnegative exponent and a modulus
greater than one (as `num_bigint`'s `modpow` is). -/
lemma bigModPow_eq_pow_emod (b e m : Int) (he : 0 ≤ e) (hm : 1 < m) :
    bigModPow b e m = some ((b ^ e.toNat) % m) := by
  unfold bigModPow
  rw [if_neg (by omega)]
  rw [bigModPowAux_eq m (by omega) e.toNat e.toNat le_rfl 1 (b % m)
        (by norm_num) hm, one_mul]
  have hmod : Int.ModEq m (b % m) b := Int.emod_emod_of_dvd b dvd_rfl
  exact congrArg some (hmod.pow _)

/-- `wrap64` is the identity exactly on the `i64` range: a multiplication
that stays in range neither wraps (release) nor panics (debug). -/
lemma wrap64_eq_of_bounds (x : Int) (h1 : -9223372036854775808 ≤ x)
    (h2 : x < 9223372036854775808) : wrap64 x = x := by
  unfold wrap64
  rw [Int.emod_eq_of_lt (by omega) (by omega)]
  omega

/-- A product of two values in `[0, m)` with `m ≤ 3037000500` fits in
`i64`: it is at most `(m - 1)² ≤ 3037000499² < 2^63`. -/
lemma mul_lt_i64 {r b m : Int} (hr : 0 ≤ r) (hrm : r < m) (hb : 0 ≤ b)
    (hbm : b < m) (hmM : m ≤ 3037000500) :
    0 ≤ r * b ∧ r * b < 9223372036854775808 := by
  refine ⟨mul_nonneg hr hb, ?_⟩
  calc r * b ≤ (m - 1) * (m - 1) :=
        mul_le_mul (by omega) (by omega) hb (by omega)
    _ ≤ 3037000499 * 3037000499 :=
        mul_le_mul (by omega) (by omega) (by omega) (by omega)
    _ < 9223372036854775808 := by norm_num

/-- As long as both operands stay in `[0, m)` with `m ≤ 3037000500`, no
product of the `i64` loop overflows, and on nonnegative operands Rust's
truncating remainder agrees with the mathematical one — so the `i64` loop
of `mod_exp` computes the same values as the exact `BigInt` loop. -/
lemma modExpAux_eq_bigModPowAux (m : Int) (hm : 0 < m)
    (hmM : m ≤ 3037000500) :
    ∀ (fuel e : Nat) (r b : Int), 0 ≤ r → r < m → 0 ≤ b → b < m →
      modExpAux m fuel e r b = bigModPowAux m fuel e r b := by
  intro fuel
  induction fuel with
  | zero => intro e r b hr hrm hb hbm; rfl
  | succ fuel ih =>
    intro e r b hr hrm hb hbm
    by_cases he0 : e = 0
    · subst he0
      rw [modExpAux, bigModPowAux, if_pos rfl, if_pos rfl]
    · rw [modExpAux, bigModPowAux, if_neg he0, if_neg he0]
      obtain ⟨hrb0, hrbLt⟩ := mul_lt_i64 hr hrm hb hbm hmM
      obtain ⟨hbb0, hbbLt⟩ := mul_lt_i64 hb hbm hb hbm hmM
      rw [wrap64_eq_of_bounds (r * b) (by omega) hrbLt,
        wrap64_eq_of_bounds (b * b) (by omega) hbbLt]
      have hbb : (b * b).tmod m = (b * b) % m :=
        Int.tmod_eq_emod hbb0 (le_of_lt hm)
      have hrb : (if e % 2 = 1 then (r * b).tmod m else r)
          = (if e % 2 = 1 then (r * b) % m else r) := by
        by_cases hp : e % 2 = 1
        · rw [if_pos hp, if_pos hp, Int.tmod_eq_emod hrb0 (le_of_lt hm)]
        · rw [if_neg hp, if_neg hp]
      rw [hbb, hrb]
      apply ih
      · by_cases hp : e % 2 = 1
        · rw [if_pos hp]
          exact Int.emod_nonneg _ (ne_of_gt hm)
        · rw [if_neg hp]
          exact hr
      · by_cases hp : e % 2 = 1
        · rw [if_pos hp]
          exact Int.emod_lt_of_pos _ hm
        · rw [if_neg hp]
          exact hrm
      · exact Int.emod_nonneg _ (ne_of_gt hm)
      · exact Int.emod_lt_of_pos _ hm

/-- C5 (amended): for every base `b ≥ 0`, exponent `e ≥ 0` and modulus `m`
with `1 < m ≤ 3037000500`, `mod_exp` returns `b ^ e mod m`, which lies in
`[0, m)`.  The modulus bound is the largest for which every intermediate
product of the loop — at most `(m - 1)²` — fits in `i64`, so no
multiplication wraps (release) or panics (debug) and both build modes
agree with this model.  (For a negative base, or for a modulus large
enough to overflow, the claim fails; see the counterexamples.) -/
theorem mod_exp_correct (b e m : Int) (hb : 0 ≤ b) (he : 0 ≤ e)
    (hm : 1 < m) (hmM : m ≤ 3037000500) :
    VerifiableSecretSharing.mod_exp b e m = (b ^ e.toNat) % m ∧
    0 ≤ VerifiableSecretSharing.mod_exp b e m ∧
    VerifiableSecretSharing.mod_exp b e m < m := by
  have key : VerifiableSecretSharing.mod_exp b e m = (b ^ e.toNat) % m := by
    unfold VerifiableSecretSharing.mod_exp
    by_cases h0 : e ≤ 0
    · have he0 : e = 0 := le_antisymm h0 he
      subst he0
      rw [if_pos le_rfl, Int.toNat_zero, pow_zero]
      exact (Int.emod_eq_of_lt (by norm_num) hm).symm
    · rw [if_neg h0, Int.tmod_eq_emod hb (by omega),
        modExpAux_eq_bigModPowAux m (by omega) hmM e.toNat e.toNat 1 (b % m)
          (by norm_num) hm (Int.emod_nonneg _ (by omega))
          (Int.emod_lt_of_pos _ (by omega)),
        bigModPowAux_eq m (by omega) e.toNat e.toNat le_rfl 1 (b % m)
          (by norm_num) hm, one_mul]
      have hmod : Int.ModEq m (b % m) b := Int.emod_emod_of_dvd b dvd_rfl
      exact hmod.pow _
  refine ⟨key, ?_, ?_⟩
  · rw [key]
    exact Int.emod_nonneg _ (by omega)
  · rw [key]
    exact Int.emod_lt_of_pos _ (by omega)

/-- C5 witness: `mod_exp(3, 5, 7) = 3⁵ mod 7 = 5 ∈ [0, 7)`. -/
theorem mod_exp_correct_witness :
    VerifiableSecretSharing.mod_exp 3 5 7 = ((3 : Int) ^ (5 : Int).toNat) % 7 ∧
    0 ≤ VerifiableSecretSharing.mod_exp 3 5 7 ∧
    VerifiableSecretSharing.mod_exp 3 5 7 < 7 :=
  mod_exp_correct 3 5 7 (by decide) (by decide) (by decide) (by decide)

/-- C5 counterexamples: the claim as stated quantifies over every base and
every modulus `> 1`, but
(1) `mod_exp(-1, 1, 5)` returns `-1` — Rust's truncating `%` keeps the sign
of the dividend — which is neither in `[0, 5)` nor equal to
`(-1)^1 mod 5 = 4`; and
(2) `mod_exp(2^40, 2, 2^62 - 1)` squares `2^40` past `i64::MAX`: the
product wraps to `0` in release builds (debug builds panic), so `0` is
returned instead of `(2^40)^2 mod (2^62 - 1) = 2^18 = 262144`.  The two
together force the amendment's `base ≥ 0` and `modulus ≤ 3037000500`
restrictions. -/
theorem mod_exp_counterexamples :
    (VerifiableSecretSharing.mod_exp (-1) 1 5 = -1 ∧
     ¬(0 ≤ VerifiableSecretSharing.mod_exp (-1) 1 5) ∧
     VerifiableSecretSharing.mod_exp (-1) 1 5 ≠
       ((-1 : Int) ^ ((1 : Int)).toNat) % 5) ∧
    (VerifiableSecretSharing.mod_exp (2 ^ 40) 2 (2 ^ 62 - 1) = 0 ∧
     ((2 ^ 40 : Int) ^ ((2 : Int)).toNat) % (2 ^ 62 - 1) = 262144 ∧
     VerifiableSecretSharing.mod_exp (2 ^ 40) 2 (2 ^ 62 - 1) ≠
       ((2 ^ 40 : Int) ^ ((2 : Int)).toNat) % (2 ^ 62 - 1)) := by
  refine ⟨⟨by decide, by decide, by decide⟩, by decide, by decide, by decide⟩
